import Mathlib

/-!
Verification development for the `lvgl-codegen` code generator
(`src/lvgl-codegen/src/lib.rs`).

The generator's data model (`LvType`, `LvArg`, `LvFunc`, `LvWidget`), the
type-mapping table, the widget extractor (`get_widget_names`,
`extract_widgets`) and the per-construct emitters (the `Rusty::code`
implementations) are shallowly embedded below.  Token streams produced by
`quote!` are modelled as lists of Rust tokens (`List String`); braces and
apostrophes inside token strings are written with `\x7b`, `\x7d`, `\x27`
escapes.
-/

namespace Codegen

/-- A `proc_macro2::TokenStream` is modelled as the list of its Rust tokens. -/
abbrev TokenStream := List String

/-- The `WrapperError` enum of the generator: its only variant is `Skip`. -/
inductive WrapperError where
  | skip
deriving DecidableEq

/-- `WrapperResult<T> = Result<T, WrapperError>`. -/
abbrev WrapperResult (α : Type) := Except WrapperError α

instance {ε α : Type} [DecidableEq ε] [DecidableEq α] : DecidableEq (Except ε α) := by
  intro a b
  cases a <;> cases b
  case error.error e f =>
    exact if h : e = f then .isTrue (by rw [h]) else .isFalse (by intro hh; cases hh; exact h rfl)
  case error.ok e x => exact .isFalse (by intro hh; cases hh)
  case ok.error x e => exact .isFalse (by intro hh; cases hh)
  case ok.ok x y =>
    exact if h : x = y then .isTrue (by rw [h]) else .isFalse (by intro hh; cases hh; exact h rfl)

/-- `LIB_PREFIX = "lv_"`. -/
def LIB_PREFIX : String := "lv_"

/-- Rust `Vec`-free model of `str::starts_with`. -/
def strStartsWith (s pat : String) : Bool := pat.data.isPrefixOf s.data

/-- Model of `str::ends_with`. -/
def strEndsWith (s pat : String) : Bool := pat.data.isSuffixOf s.data

/-- Model of `str::contains` (substring containment). -/
def strContainsSub (s pat : String) : Bool := s.data.tails.any (fun t => pat.data.isPrefixOf t)

/-- One rewriting step list for `str::replace`: replace the non-overlapping,
leftmost-first occurrences of `pat` by `repl`.  Structural recursion on a fuel
argument; fuel equal to the length of the list is always sufficient because
each step consumes at least one character.  (The `pat = []` guard is never hit
by the generator: the pattern used is `"lv_" ++ widget ++ "_"`, never empty.) -/
def replaceFuel (pat repl : List Char) : Nat → List Char → List Char
  | 0, l => l
  | _ + 1, [] => []
  | fuel + 1, c :: cs =>
    if pat ≠ [] ∧ pat.isPrefixOf (c :: cs) then
      repl ++ replaceFuel pat repl fuel (List.drop (pat.length - 1) cs)
    else
      c :: replaceFuel pat repl fuel cs

/-- Model of Rust `str::replace s pat repl`. -/
def strReplace (s pat repl : String) : String :=
  ⟨replaceFuel pat.data repl.data s.data.length s.data⟩

/-- The `TYPE_MAPPINGS` table of the generator, as the list of its entries. -/
def TYPE_MAPPINGS : List (String × String) :=
  [("u16", "u16"), ("i32", "i32"), ("u8", "u8"), ("bool", "bool"),
   ("* const cty :: c_char", "_")]

/-- `TYPE_MAPPINGS.get(spelling)`. -/
def typeMappingsGet (s : String) : Option String :=
  (TYPE_MAPPINGS.find? (fun p => p.1 = s)).map (fun p => p.2)

/-- `LvType { literal_name }` (the unused parsed `syn` type is not modelled). -/
structure LvType where
  literal_name : String
deriving DecidableEq

/-- `LvType::is_const`. -/
def LvType.is_const (t : LvType) : Bool := strStartsWith t.literal_name "const "

/-- `LvType::is_str`. -/
def LvType.is_str (t : LvType) : Bool := strEndsWith t.literal_name "* const cty :: c_char"

/-- `LvArg { name, typ }`. -/
structure LvArg where
  name : String
  typ : LvType
deriving DecidableEq

/-- Rust keywords that `syn` refuses to parse as a plain identifier, making
`LvArg::get_name_ident` fall back to a raw `r#` identifier. -/
def rustKeywords : List String :=
  ["as", "break", "const", "continue", "crate", "dyn", "else", "enum", "extern",
   "false", "fn", "for", "if", "impl", "in", "let", "loop", "match", "mod",
   "move", "mut", "pub", "ref", "return", "self", "Self", "static", "struct",
   "super", "trait", "true", "type", "unsafe", "use", "where", "while",
   "async", "await"]

/-- `LvArg::get_name_ident`: the argument name, raw-escaped if it is a Rust
keyword (modelling the `syn::parse_str::<Ident>` fallback). -/
def LvArg.get_name_ident (a : LvArg) : String :=
  if rustKeywords.contains a.name then "r#" ++ a.name else a.name

/-- `LvArg::get_processing`: always the empty token stream. -/
def LvArg.get_processing (_a : LvArg) : TokenStream := []

/-- `LvArg::get_value_usage`: string-typed arguments are converted with
`.as_ptr()`, everything else is passed as the bare identifier. -/
def LvArg.get_value_usage (a : LvArg) : TokenStream :=
  if a.typ.is_str then [a.get_name_ident, ".", "as_ptr", "(", ")"]
  else [a.get_name_ident]

/-- `<LvType as Rusty>::code`: table lookup, then `&CStr` for the string
spelling, a wrapper reference for `lv_`-containing spellings, a bare type
otherwise; a lookup miss is `Skip`. -/
def LvType.code (t : LvType) (_parent : LvArg) : WrapperResult TokenStream :=
  match typeMappingsGet t.literal_name with
  | some name =>
    .ok (if t.is_str then ["&", "cstr_core", "::", "CStr"]
         else if strContainsSub t.literal_name "lv_" then ["&", name]
         else [name])
  | none => .error .skip

/-- `LvFunc { name, args, ret }`. -/
structure LvFunc where
  name : String
  args : List LvArg
  ret : Option LvType
deriving DecidableEq

/-- `LvFunc::is_method`: nonempty argument list whose first argument's type
spelling contains `lv_obj_t`. -/
def LvFunc.is_method (f : LvFunc) : Bool :=
  match f.args with
  | [] => false
  | first_arg :: _ => strContainsSub first_arg.typ.literal_name "lv_obj_t"

/-- `<LvArg as Rusty>::code`: `name : type`. -/
def LvArg.code (a : LvArg) (_parent : LvFunc) : WrapperResult TokenStream :=
  match a.typ.code a with
  | .error e => .error e
  | .ok typ => .ok ([a.get_name_ident, ":"] ++ typ)

/-- The token stream emitted for a `_create` declaration (the constructor
path of `<LvFunc as Rusty>::code`): a `create(parent)` entry point calling
`lvgl_sys::<name>(parent.raw().as_mut())`, wrapping a non-null result and
returning `LvError::InvalidReference` on a null handle, plus a no-argument
`new()` delegating to `create`. -/
def constructorCode (original_func_name : String) : TokenStream :=
  ["pub", "fn", "create", "(", "parent", ":", "&", "mut", "impl", "crate", "::",
   "NativeObject", ")", "->", "crate", "::", "LvResult", "<", "Self", ">", "\x7b",
   "unsafe", "\x7b",
   "let", "ptr", "=", "lvgl_sys", "::", original_func_name, "(",
   "parent", ".", "raw", "(", ")", ".", "as_mut", "(", ")", ",", ")", ";",
   "if", "let", "Some", "(", "raw", ")", "=",
   "core", "::", "ptr", "::", "NonNull", "::", "new", "(", "ptr", ")", "\x7b",
   "let", "core", "=", "<", "crate", "::", "Obj", "as", "crate", "::", "Widget",
   ">", "::", "from_raw", "(", "raw", ")", ".", "unwrap", "(", ")", ";",
   "Ok", "(", "Self", "\x7b", "core", "\x7d", ")",
   "\x7d", "else", "\x7b",
   "Err", "(", "crate", "::", "LvError", "::", "InvalidReference", ")",
   "\x7d", "\x7d", "\x7d",
   "pub", "fn", "new", "(", ")", "->", "crate", "::", "LvResult", "<", "Self",
   ">", "\x7b",
   "let", "mut", "parent", "=", "crate", "::", "display", "::", "get_scr_act",
   "(", ")", "?", ";",
   "Self", "::", "create", "(", "&", "mut", "parent", ")", "\x7d"]

/-- The return-type spellings accepted by the non-constructor path. -/
def supportedRet : List String := ["bool", "u32", "i32", "u16", "i16", "u8", "i8"]

/-- The `match` on the return value in `<LvFunc as Rusty>::code`: `None`
becomes `()`, each supported spelling becomes the same-spelled token, anything
else is `Skip`. -/
def retToksOf : Option LvType → WrapperResult TokenStream
  | none => .ok ["(", ")"]
  | some rv =>
    if rv.literal_name ∈ supportedRet then .ok [rv.literal_name] else .error .skip

/-- The comma-joining accumulator fold used by `args_decl` and `ffi_args`:
append with a comma unless the accumulator is still empty. -/
def accJoin (xs : List TokenStream) : TokenStream :=
  xs.foldl (fun acc n => if acc.isEmpty then n else acc ++ [","] ++ n) []

/-- The `args_decl` fold: index 0 becomes the `self` receiver (immutable iff
the first argument's type is const), later indices use the already-checked
per-argument declarations. -/
def argsDeclToks (args : List LvArg) (decls : List TokenStream) : TokenStream :=
  match args with
  | [] => accJoin []
  | a :: _ =>
    accJoin ((if a.typ.is_const then ["&", "self"] else ["&", "mut", "self"]) :: decls)

/-- The `args_processing` fold: index 0 contributes nothing and
`get_processing` is empty for every other argument. -/
def argsProcessingToks (args : List LvArg) : TokenStream :=
  (args.drop 1).foldl (fun acc a => acc ++ a.get_processing) []

/-- The fixed first FFI argument `self.core.raw().as_mut()`. -/
def selfFfiToks : TokenStream :=
  ["self", ".", "core", ".", "raw", "(", ")", ".", "as_mut", "(", ")"]

/-- The `ffi_args` fold: index 0 is always `self.core.raw().as_mut()`, later
indices use `get_value_usage`. -/
def ffiArgsToks (args : List LvArg) : TokenStream :=
  match args with
  | [] => accJoin []
  | _ :: rest => accJoin (selfFfiToks :: rest.map (fun a => a.get_value_usage))

/-- `explicit_ok`: `Ok(())` only when the return-type token stream is empty
(which never happens: a void return is rendered as the nonempty `()`). -/
def explicitOkToks (return_type : TokenStream) : TokenStream :=
  if return_type.isEmpty then ["Ok", "(", "(", ")", ")"] else []

/-- `optional_semicolon`: a semicolon after the native call iff the
declaration returns nothing. -/
def optSemicolonToks : Option LvType → TokenStream
  | none => [";"]
  | some _ => []

/-- The final `quote!` of the regular-method path of
`<LvFunc as Rusty>::code`. -/
def methodBody (f : LvFunc) (new_name : String) (return_type : TokenStream)
    (decls : List TokenStream) : TokenStream :=
  ["pub", "fn", new_name, "("] ++ argsDeclToks f.args decls ++ [")", "->"]
    ++ return_type ++ ["\x7b"]
    ++ argsProcessingToks f.args
    ++ ["unsafe", "\x7b", "lvgl_sys", "::", f.name, "("] ++ ffiArgsToks f.args
    ++ [")"] ++ optSemicolonToks f.ret ++ ["\x7d"]
    ++ explicitOkToks return_type ++ ["\x7d"]

/-- `LvWidget { name, methods }`. -/
structure LvWidget where
  name : String
  methods : List LvFunc
deriving DecidableEq

/-- The argument-checking loop `for arg in self.args.iter().skip(1) {
arg.code(self)?; }`, collecting the streams that the later folds unwrap. -/
def checkArgs (f : LvFunc) : List LvArg → WrapperResult (List TokenStream)
  | [] => .ok []
  | a :: l =>
    match a.code f with
    | .error e => .error e
    | .ok b =>
      match checkArgs f l with
      | .error e => .error e
      | .ok bs => .ok (b :: bs)

/-- `<LvFunc as Rusty>::code`: strip `lv_<widget>_` from the name; the
remainder `create` triggers the constructor path; otherwise translate the
return type, check every argument after the receiver, and render the method. -/
def LvFunc.code (f : LvFunc) (parent : LvWidget) : WrapperResult TokenStream :=
  let templ := LIB_PREFIX ++ parent.name ++ "_"
  let new_name := strReplace f.name templ ""
  if new_name = "create" then
    .ok (constructorCode f.name)
  else
    match retToksOf f.ret with
    | .error e => .error e
    | .ok return_type =>
      match checkArgs f (f.args.drop 1) with
      | .error e => .error e
      | .ok decls => .ok (methodBody f new_name return_type decls)

/-- One word of the pascal-case conversion: first character upper-cased, the
rest lower-cased. -/
def capWord : List Char → List Char
  | [] => []
  | c :: cs => c.toUpper :: cs.map Char.toLower

/-- Splitting a character list at a separator character. -/
def splitOnChar (sep : Char) : List Char → List (List Char)
  | [] => [[]]
  | c :: cs =>
    let r := splitOnChar sep cs
    if c = sep then [] :: r
    else
      match r with
      | [] => [[c]]
      | w :: ws => (c :: w) :: ws

/-- Model of the external `inflector::to_pascal_case` used by
`LvWidget::pascal_name`, for the ASCII identifiers occurring here: capitalize
each underscore-separated word and concatenate. -/
def toPascalCase (s : String) : String :=
  ⟨((splitOnChar '_' s.data).map capWord).foldl (fun acc w => acc ++ w) []⟩

/-- `LvWidget::pascal_name`. -/
def LvWidget.pascal_name (w : LvWidget) : String := toPascalCase w.name

/-- The method fragments a widget emits: the `flat_map` over
`m.code(self)`, keeping exactly the successful streams. -/
def LvWidget.methodFragments (w : LvWidget) : List TokenStream :=
  w.methods.filterMap (fun m => (m.code w).toOption)

/-- `<LvWidget as Rusty>::code`: the widget named `obj` is `Skip`; any other
widget renders `define_object!(<Pascal>);` plus an `impl` block holding the
successful method fragments. -/
def LvWidget.code (w : LvWidget) (_parent : Unit) : WrapperResult TokenStream :=
  if w.name = "obj" then .error .skip
  else
    .ok (["define_object", "!", "(", w.pascal_name, ")", ";",
          "impl", "<", "\x27a", ">", w.pascal_name, "<", "\x27a", ">", "\x7b"]
         ++ (LvWidget.methodFragments w).flatten ++ ["\x7d"])

/-- Char-list prefix removal: `some r` iff the list is `pat ++ r`. -/
def dropPrefixCh : List Char → List Char → Option (List Char)
  | [], l => some l
  | _ :: _, [] => none
  | p :: ps, c :: cs => if p = c then dropPrefixCh ps cs else none

/-- Char-list suffix removal: `some r` iff the list is `r ++ pat`. -/
def dropSuffixCh (pat l : List Char) : Option (List Char) :=
  (dropPrefixCh pat.reverse l.reverse).map List.reverse

/-- The regex `^lv_([^_]+)_create$` of `get_widget_names`: the capture is the
middle segment, which must be nonempty and underscore-free. -/
def createCapture (n : String) : Option String :=
  (dropPrefixCh "lv_".data n.data).bind fun rest =>
    (dropSuffixCh "_create".data rest).bind fun mid =>
      if mid ≠ [] ∧ mid.contains '_' = false then some ⟨mid⟩ else none

/-- `CodeGen::get_widget_names`: filter the declarations matching the
`_create` regex with exactly one argument, then map out the captures. -/
def get_widget_names (functions : List LvFunc) : List String :=
  (functions.filter
      (fun f => (createCapture f.name).isSome && f.args.length == 1)).filterMap
    (fun f => createCapture f.name)

/-- The grouping condition of `extract_widgets`: the declaration name starts
with `lv_<widget>` (no trailing underscore) and the declaration is a method. -/
def matchesWidget (f : LvFunc) (w : String) : Bool :=
  strStartsWith f.name (LIB_PREFIX ++ w) && f.is_method

/-- `HashMap::entry(w).or_insert_with(empty-widget).methods.push(f)` on an
association-list view of the map (content only; traversal order of the real
`HashMap` is a separate parameter). -/
def mapPush (m : List (String × List LvFunc)) (w : String) (f : LvFunc) :
    List (String × List LvFunc) :=
  match m with
  | [] => [(w, [f])]
  | (k, ms) :: rest =>
    if k = w then (k, ms ++ [f]) :: rest else (k, ms) :: mapPush rest w f

/-- The inner `for widget_name in &widget_names` loop of the
`extract_widgets` fold, for one declaration `f`. -/
def groupInner (f : LvFunc) : List String → List (String × List LvFunc) →
    List (String × List LvFunc)
  | [], acc => acc
  | w :: ws, acc =>
    groupInner f ws (if matchesWidget f w then mapPush acc w f else acc)

/-- The outer `functions.iter().fold(HashMap::new(), ..)` loop of
`extract_widgets`. -/
def groupFold (widget_names : List String) : List LvFunc →
    List (String × List LvFunc) → List (String × List LvFunc)
  | [], ws => ws
  | f :: fs, ws => groupFold widget_names fs (groupInner f widget_names ws)

/-- The contents of the `HashMap` built by the `extract_widgets` fold: for
each declaration in input order, push it onto every widget name it matches. -/
def extract_widgets_map (functions : List LvFunc) : List (String × List LvFunc) :=
  groupFold (get_widget_names functions) functions []

/-- `widgets.values().cloned().collect()`: `std::collections::HashMap` does
not fix a traversal order, so the enumeration order of the entries is an
explicit parameter (a run of the program corresponds to some permutation of
the entry indices). -/
def extract_widgets (functions : List LvFunc) (order : List Nat) : List LvWidget :=
  order.filterMap
    (fun i => ((extract_widgets_map functions).get? i).map (fun p => ⟨p.1, p.2⟩))

/-- `CodeGen::extract_widgets` always returns `Ok` (the `CGResult` error type
is modelled as `String`). -/
def extract_widgets_res (functions : List LvFunc) (order : List Nat) :
    Except String (List LvWidget) :=
  .ok (extract_widgets functions order)

/-- The method list the map assigns to a widget name. -/
def lookupA : List (String × List LvFunc) → String → Option (List LvFunc)
  | [], _ => none
  | (k, ms) :: rest, w => if k = w then some ms else lookupA rest w

/-- The method list of widget `w` after extraction. -/
def methodsOf (functions : List LvFunc) (w : String) : List LvFunc :=
  (lookupA (extract_widgets_map functions) w).getD []

/-- The per-widget generated units, in extractor order, skip results dropped. -/
def emitted_units (functions : List LvFunc) (order : List Nat) : List TokenStream :=
  (extract_widgets functions order).filterMap (fun w => (w.code ()).toOption)

/-- Modelled from the spec: the emission driver of the repository (outside
`src/`) concatenates the per-widget generated units into the generated output
text; the generated bytes are determined by this token concatenation. -/
def pipeline_output (functions : List LvFunc) (order : List Nat) : TokenStream :=
  (emitted_units functions order).flatten

/-! ### Helper lemmas about the association-list view of the grouping map -/

theorem lookupA_mapPush_self (m : List (String × List LvFunc)) (w : String) (f : LvFunc) :
    lookupA (mapPush m w f) w = some ((lookupA m w).getD [] ++ [f]) := by
  induction m with
  | nil => simp [mapPush, lookupA]
  | cons p rest ih =>
    obtain ⟨k, ms⟩ := p
    by_cases h : k = w
    · subst h
      simp [mapPush, lookupA]
    · simp [mapPush, lookupA, h, ih]

theorem lookupA_mapPush_ne (m : List (String × List LvFunc)) (w w' : String) (f : LvFunc)
    (h : w' ≠ w) : lookupA (mapPush m w f) w' = lookupA m w' := by
  induction m with
  | nil => simp [mapPush, lookupA, Ne.symm h]
  | cons p rest ih =>
    obtain ⟨k, ms⟩ := p
    by_cases hk : k = w
    · subst hk
      simp [mapPush, lookupA, Ne.symm h]
    · by_cases hk' : k = w'
      · subst hk'
        simp [mapPush, lookupA, hk]
      · simp [mapPush, lookupA, hk, hk', ih]

theorem mem_groupInner (x f : LvFunc) (names : List String)
    (acc : List (String × List LvFunc)) (w : String) :
    x ∈ (lookupA (groupInner f names acc) w).getD [] ↔
      x ∈ (lookupA acc w).getD [] ∨
        (w ∈ names ∧ matchesWidget f w = true ∧ x = f) := by
  induction names generalizing acc with
  | nil => simp [groupInner]
  | cons n ns ih =>
    rw [groupInner, ih]
    by_cases hm : matchesWidget f n
    · rw [if_pos hm]
      by_cases hw : w = n
      · subst hw
        simp [lookupA_mapPush_self, hm]
        tauto
      · rw [lookupA_mapPush_ne _ _ _ _ hw]
        simp [List.mem_cons, hw]
    · rw [if_neg hm]
      by_cases hw : w = n
      · subst hw
        simp only [Bool.not_eq_true] at hm
        simp [List.mem_cons, hm]
      · simp [List.mem_cons, hw]

theorem mem_groupFold (x : LvFunc) (names : List String) (fs : List LvFunc)
    (acc : List (String × List LvFunc)) (w : String) :
    x ∈ (lookupA (groupFold names fs acc) w).getD [] ↔
      x ∈ (lookupA acc w).getD [] ∨
        (x ∈ fs ∧ w ∈ names ∧ matchesWidget x w = true) := by
  induction fs generalizing acc with
  | nil => simp [groupFold]
  | cons f fs ih =>
    rw [groupFold, ih, mem_groupInner]
    constructor
    · rintro ((h | ⟨hn, hm, rfl⟩) | ⟨hf, hn, hm⟩)
      · exact .inl h
      · exact .inr ⟨List.mem_cons_self _ _, hn, hm⟩
      · exact .inr ⟨List.mem_cons_of_mem _ hf, hn, hm⟩
    · rintro (h | ⟨hf, hn, hm⟩)
      · exact .inl (.inl h)
      · rcases List.mem_cons.mp hf with rfl | hf'
        · exact .inl (.inr ⟨hn, hm, rfl⟩)
        · exact .inr ⟨hf', hn, hm⟩

theorem mem_methodsOf (functions : List LvFunc) (w : String) (x : LvFunc) :
    x ∈ methodsOf functions w ↔
      x ∈ functions ∧ w ∈ get_widget_names functions ∧ matchesWidget x w = true := by
  unfold methodsOf extract_widgets_map
  rw [mem_groupFold]
  simp [lookupA]

theorem keys_mapPush (m : List (String × List LvFunc)) (w : String) (f : LvFunc) :
    (mapPush m w f).map Prod.fst =
      if (lookupA m w).isSome then m.map Prod.fst else m.map Prod.fst ++ [w] := by
  induction m with
  | nil => simp [mapPush, lookupA]
  | cons p rest ih =>
    obtain ⟨k, ms⟩ := p
    by_cases h : k = w
    · subst h
      simp [mapPush, lookupA]
    · by_cases h2 : (lookupA rest w).isSome <;>
        simp [mapPush, lookupA, h, ih, h2]

theorem lookupA_eq_none_iff (m : List (String × List LvFunc)) (w : String) :
    lookupA m w = none ↔ w ∉ m.map Prod.fst := by
  induction m with
  | nil => simp [lookupA]
  | cons p rest ih =>
    obtain ⟨k, ms⟩ := p
    by_cases h : k = w
    · subst h
      simp [lookupA]
    · simp [lookupA, h, ih, Ne.symm h]

theorem nodup_keys_mapPush (m : List (String × List LvFunc)) (w : String) (f : LvFunc)
    (h : (m.map Prod.fst).Nodup) : ((mapPush m w f).map Prod.fst).Nodup := by
  rw [keys_mapPush]
  by_cases hs : (lookupA m w).isSome
  · simpa [hs] using h
  · have hw : w ∉ m.map Prod.fst := by
      rw [← lookupA_eq_none_iff]
      exact Option.not_isSome_iff_eq_none.mp hs
    simp [hs, List.nodup_append, h, hw]

theorem nodup_keys_groupInner (f : LvFunc) (names : List String)
    (acc : List (String × List LvFunc)) (h : (acc.map Prod.fst).Nodup) :
    ((groupInner f names acc).map Prod.fst).Nodup := by
  induction names generalizing acc with
  | nil => simpa [groupInner] using h
  | cons n ns ih =>
    rw [groupInner]
    apply ih
    by_cases hm : matchesWidget f n
    · rw [if_pos hm]
      exact nodup_keys_mapPush _ _ _ h
    · simpa [hm] using h

theorem nodup_keys_groupFold (names : List String) (fs : List LvFunc)
    (acc : List (String × List LvFunc)) (h : (acc.map Prod.fst).Nodup) :
    ((groupFold names fs acc).map Prod.fst).Nodup := by
  induction fs generalizing acc with
  | nil => simpa [groupFold] using h
  | cons f fs ih =>
    rw [groupFold]
    exact ih _ (nodup_keys_groupInner _ _ _ h)

theorem nodup_keys_extract_map (functions : List LvFunc) :
    ((extract_widgets_map functions).map Prod.fst).Nodup :=
  nodup_keys_groupFold _ _ _ (by simp)

theorem lookupA_of_mem (m : List (String × List LvFunc))
    (hnd : (m.map Prod.fst).Nodup) (p : String × List LvFunc) (hp : p ∈ m) :
    lookupA m p.1 = some p.2 := by
  induction m with
  | nil => cases hp
  | cons q rest ih =>
    rcases List.mem_cons.mp hp with rfl | hp'
    · obtain ⟨k, ms⟩ := p
      simp [lookupA]
    · obtain ⟨k, ms⟩ := q
      have hk : k ≠ p.1 := by
        intro hcontra
        have : p.1 ∈ rest.map Prod.fst := List.mem_map.mpr ⟨p, hp', rfl⟩
        rw [← hcontra] at this
        exact (List.nodup_cons.mp (by simpa using hnd)).1 this
      simp only [lookupA, if_neg hk]
      exact ih (List.nodup_cons.mp (by simpa using hnd)).2 hp'

theorem nonempty_vals_mapPush (m : List (String × List LvFunc)) (w : String) (f : LvFunc)
    (h : ∀ p ∈ m, p.2 ≠ []) : ∀ p ∈ mapPush m w f, p.2 ≠ [] := by
  induction m with
  | nil =>
    intro p hp
    simp [mapPush] at hp
    subst hp
    simp
  | cons q rest ih =>
    obtain ⟨k, ms⟩ := q
    intro p hp
    by_cases hk : k = w
    · subst hk
      simp only [mapPush, if_pos rfl] at hp
      rcases List.mem_cons.mp hp with rfl | hp'
      · simp
      · exact h p (List.mem_cons_of_mem _ hp')
    · simp only [mapPush, if_neg hk] at hp
      rcases List.mem_cons.mp hp with rfl | hp'
      · exact h _ (List.mem_cons_self _ _)
      · exact ih (fun q hq => h q (List.mem_cons_of_mem _ hq)) p hp'

theorem nonempty_vals_groupInner (f : LvFunc) (names : List String)
    (acc : List (String × List LvFunc)) (h : ∀ p ∈ acc, p.2 ≠ []) :
    ∀ p ∈ groupInner f names acc, p.2 ≠ [] := by
  induction names generalizing acc with
  | nil => simpa [groupInner] using h
  | cons n ns ih =>
    rw [groupInner]
    apply ih
    by_cases hm : matchesWidget f n
    · rw [if_pos hm]
      exact nonempty_vals_mapPush _ _ _ h
    · simpa [hm] using h

theorem nonempty_vals_groupFold (names : List String) (fs : List LvFunc)
    (acc : List (String × List LvFunc)) (h : ∀ p ∈ acc, p.2 ≠ []) :
    ∀ p ∈ groupFold names fs acc, p.2 ≠ [] := by
  induction fs generalizing acc with
  | nil => simpa [groupFold] using h
  | cons f fs ih =>
    rw [groupFold]
    exact ih _ (nonempty_vals_groupInner _ _ _ h)

theorem nonempty_vals_extract_map (functions : List LvFunc) :
    ∀ p ∈ extract_widgets_map functions, p.2 ≠ [] :=
  nonempty_vals_groupFold _ _ _ (by simp)

theorem mem_extract_widgets (functions : List LvFunc) (order : List Nat) (w : LvWidget)
    (hw : w ∈ extract_widgets functions order) :
    ∃ p ∈ extract_widgets_map functions, w = ⟨p.1, p.2⟩ := by
  obtain ⟨i, _, hi⟩ := List.mem_filterMap.mp hw
  cases hg : (extract_widgets_map functions).get? i with
  | none => rw [hg] at hi; cases hi
  | some p =>
    rw [hg] at hi
    refine ⟨p, List.get?_mem hg, ?_⟩
    cases hi
    rfl

theorem extract_widgets_methods_eq (functions : List LvFunc) (order : List Nat)
    (w : LvWidget) (hw : w ∈ extract_widgets functions order) :
    w.methods = methodsOf functions w.name := by
  obtain ⟨p, hp, rfl⟩ := mem_extract_widgets functions order w hw
  unfold methodsOf
  rw [lookupA_of_mem (extract_widgets_map functions) (nodup_keys_extract_map functions) p hp]
  rfl

/-! ### Helper lemmas about the `_create` capture -/

theorem dropPrefixCh_eq_some {p l r : List Char} :
    dropPrefixCh p l = some r ↔ l = p ++ r := by
  induction p generalizing l with
  | nil => simp [dropPrefixCh]
  | cons a ps ih =>
    cases l with
    | nil => simp [dropPrefixCh]
    | cons c cs =>
      by_cases h : a = c
      · subst h
        simp [dropPrefixCh, ih]
      · simp [dropPrefixCh, h, Ne.symm h]

theorem dropSuffixCh_eq_some {p l r : List Char} :
    dropSuffixCh p l = some r ↔ l = r ++ p := by
  unfold dropSuffixCh
  constructor
  · intro h
    obtain ⟨r', hr', hrev⟩ := Option.map_eq_some'.mp h
    have := dropPrefixCh_eq_some.mp hr'
    have hl : l.reverse = p.reverse ++ r' := this
    subst hrev
    have := congrArg List.reverse hl
    simpa using this
  · rintro rfl
    have : dropPrefixCh p.reverse (r ++ p).reverse = some r.reverse := by
      rw [dropPrefixCh_eq_some]
      simp
    rw [this]
    simp

theorem string_eq_iff_data {s t : String} : s = t ↔ s.data = t.data := by
  constructor
  · intro h; rw [h]
  · intro h
    cases s
    cases t
    exact congrArg String.mk h

theorem createCapture_eq_some (n X : String) :
    createCapture n = some X ↔
      n = "lv_" ++ X ++ "_create" ∧ X.data ≠ [] ∧ X.data.contains '_' = false := by
  simp only [createCapture, Option.bind_eq_some]
  constructor
  · rintro ⟨rest, hrest, mid, hmid, hif⟩
    by_cases hg : mid ≠ [] ∧ mid.contains '_' = false
    · rw [if_pos hg] at hif
      have hmidX : mid = X.data := by
        have := Option.some.inj hif
        rw [← this]
      refine ⟨?_, hmidX ▸ hg.1, hmidX ▸ hg.2⟩
      rw [string_eq_iff_data]
      rw [dropPrefixCh_eq_some.mp hrest, dropSuffixCh_eq_some.mp hmid, hmidX]
      simp [String.data_append]
    · rw [if_neg hg] at hif
      cases hif
  · rintro ⟨rfl, hne, hnu⟩
    refine ⟨X.data ++ "_create".data, ?_, X.data, ?_, ?_⟩
    · rw [dropPrefixCh_eq_some]
      simp [String.data_append]
    · rw [dropSuffixCh_eq_some]
    · rw [if_pos ⟨hne, hnu⟩]

/-! ### Helper lemmas about the emitters -/

theorem LvArg.code_error_of_unmapped (a : LvArg) (f : LvFunc)
    (h : typeMappingsGet a.typ.literal_name = none) : a.code f = .error .skip := by
  simp [LvArg.code, LvType.code, h]

theorem checkArgs_error_of_mem (f : LvFunc) (l : List LvArg) (a : LvArg)
    (hmem : a ∈ l) (ha : a.code f = .error .skip) : checkArgs f l = .error .skip := by
  induction l with
  | nil => cases hmem
  | cons b l ih =>
    rcases List.mem_cons.mp hmem with rfl | hmem'
    · simp [checkArgs, ha]
    · cases hb : b.code f with
      | error e => cases e; simp [checkArgs, hb]
      | ok t => simp [checkArgs, hb, ih hmem']

theorem checkArgs_parent_irrelevant (f g : LvFunc) (l : List LvArg) :
    checkArgs f l = checkArgs g l := by
  induction l with
  | nil => rfl
  | cons a l ih =>
    unfold checkArgs
    rw [ih]
    rfl

/-! ### Concrete declarations used to instantiate the theorems -/

/-- The object-handle type spelling `*mut lv_obj_t` as `syn` renders it. -/
def demoObjT : LvType := ⟨"* mut lv_obj_t"⟩

def demoParentArg : LvArg := ⟨"parent", demoObjT⟩

def barCreateFn : LvFunc := ⟨"lv_bar_create", [demoParentArg], some demoObjT⟩

def btnCreateFn : LvFunc := ⟨"lv_btn_create", [demoParentArg], some demoObjT⟩

def barcodeSetFn : LvFunc := ⟨"lv_barcode_set_x", [⟨"obj", demoObjT⟩], none⟩

def emptyCaptureFn : LvFunc := ⟨"lv__create", [demoParentArg], none⟩

def objCreateFn : LvFunc := ⟨"lv_obj_create", [demoParentArg], none⟩

def arcCreate2Fn : LvFunc :=
  ⟨"lv_arc_create", [⟨"par", demoObjT⟩, ⟨"copy", ⟨"* const lv_obj_t"⟩⟩], some demoObjT⟩

def arcSetAngleFn : LvFunc :=
  ⟨"lv_arc_set_bg_end_angle", [⟨"arc", demoObjT⟩, ⟨"end", ⟨"u16"⟩⟩], none⟩

def labelGetRecolorFn : LvFunc := ⟨"lv_label_get_recolor", [⟨"label", demoObjT⟩], some ⟨"bool"⟩⟩

def labelSetStyleFn : LvFunc :=
  ⟨"lv_label_set_style", [⟨"label", demoObjT⟩, ⟨"style", ⟨"* mut lv_style_t"⟩⟩], none⟩

def labelSetTextFn : LvFunc :=
  ⟨"lv_label_set_text", [⟨"label", demoObjT⟩, ⟨"text", ⟨"* const cty :: c_char"⟩⟩], none⟩

/-! ### The claims -/

/-- Claim C1, counterexample.  The claim states that re-running the pipeline
on identical input yields byte-identical output, with widgets in the same
order on every run.  In the source the grouping map is a
`std::collections::HashMap` and the widget list is `widgets.values()`; the
traversal order of `values()` is not determined by the input.  At the
two-widget input below, the `[0, 1]` and `[1, 0]` enumerations of the same
map are both permutations of the entry indices, yet the generated outputs
differ, so the generated bytes are not a function of the input text alone. -/
theorem claim1_counterexample :
    List.Perm [0, 1] (List.range (extract_widgets_map [barCreateFn, btnCreateFn]).length) ∧
    List.Perm [1, 0] (List.range (extract_widgets_map [barCreateFn, btnCreateFn]).length) ∧
    pipeline_output [barCreateFn, btnCreateFn] [0, 1] ≠
      pipeline_output [barCreateFn, btnCreateFn] [1, 0] := by
  decide

/-- Claim C1, amended.  The grouping map contents — in particular each
widget's method list — are a deterministic function of the input, and two
runs differing only in the hash map's traversal order produce the same
widget set and the same per-widget generated units up to a permutation of
whole per-widget blocks; byte-identical output is guaranteed only if the
traversal orders coincide. -/
theorem claim1_amended_determinism (functions : List LvFunc) (o1 o2 : List Nat)
    (h : o1.Perm o2) :
    (extract_widgets functions o1).Perm (extract_widgets functions o2) ∧
    (emitted_units functions o1).Perm (emitted_units functions o2) ∧
    (∀ w : LvWidget, w ∈ extract_widgets functions o1 →
      w.methods = methodsOf functions w.name) := by
  have h1 := h.filterMap
    (fun i => ((extract_widgets_map functions).get? i).map (fun p => (⟨p.1, p.2⟩ : LvWidget)))
  exact ⟨h1, h1.filterMap _, fun w hw => extract_widgets_methods_eq functions o1 w hw⟩

/-- Claim C1, witness for the amended theorem at a concrete input. -/
theorem claim1_witness :
    List.Perm [0, 1] [1, 0] ∧
    ((extract_widgets [barCreateFn, btnCreateFn] [0, 1]).Perm
        (extract_widgets [barCreateFn, btnCreateFn] [1, 0]) ∧
      (emitted_units [barCreateFn, btnCreateFn] [0, 1]).Perm
        (emitted_units [barCreateFn, btnCreateFn] [1, 0]) ∧
      (∀ w : LvWidget, w ∈ extract_widgets [barCreateFn, btnCreateFn] [0, 1] →
        w.methods = methodsOf [barCreateFn, btnCreateFn] w.name)) :=
  ⟨by decide, claim1_amended_determinism [barCreateFn, btnCreateFn] [0, 1] [1, 0] (by decide)⟩

/-- Claim C2, counterexample.  The claim requires membership in a widget's
method list to be equivalent to the name being prefixed by
`<prefix><W>_` — prefix, widget name, then an underscore.  The grouping in
`extract_widgets` only tests `starts_with(lv_<W>)` without the underscore:
`lv_barcode_set_x` is placed into widget `bar`'s method list although its
name is not prefixed by `lv_bar_`. -/
theorem claim2_counterexample :
    barcodeSetFn ∈ methodsOf [barCreateFn, barcodeSetFn] "bar" ∧
    strStartsWith barcodeSetFn.name (LIB_PREFIX ++ "bar" ++ "_") = false ∧
    "bar" ∈ get_widget_names [barCreateFn, barcodeSetFn] ∧
    barcodeSetFn.is_method = true := by
  decide

/-- Claim C2, amended.  A declaration lands in widget `W`'s method list iff
`W` is a discovered widget name, the declaration is one of the loaded
declarations, its name starts with `lv_<W>` (no underscore required after
the widget name), and its first parameter's type spelling contains
`lv_obj_t`; every widget produced by extraction carries exactly the method
list the grouping map assigns to its name. -/
theorem claim2_amended_membership (functions : List LvFunc) :
    (∀ (w : String) (x : LvFunc),
      x ∈ methodsOf functions w ↔
        x ∈ functions ∧ w ∈ get_widget_names functions ∧
          strStartsWith x.name (LIB_PREFIX ++ w) = true ∧ x.is_method = true) ∧
    (∀ (order : List Nat) (w : LvWidget), w ∈ extract_widgets functions order →
      w.methods = methodsOf functions w.name) := by
  constructor
  · intro w x
    rw [mem_methodsOf]
    simp only [matchesWidget, Bool.and_eq_true]
  · exact fun order w hw => extract_widgets_methods_eq functions order w hw

/-- Claim C2, witness for the amended theorem at a concrete input. -/
theorem claim2_witness :
    barCreateFn ∈ methodsOf [barCreateFn, barcodeSetFn] "bar" ∧
    (⟨"bar", [barCreateFn, barcodeSetFn]⟩ : LvWidget).methods =
      methodsOf [barCreateFn, barcodeSetFn] "bar" :=
  ⟨((claim2_amended_membership [barCreateFn, barcodeSetFn]).1 "bar" barCreateFn).mpr
      ⟨by decide, by decide, by decide, by decide⟩,
    (claim2_amended_membership [barCreateFn, barcodeSetFn]).2 [0]
      ⟨"bar", [barCreateFn, barcodeSetFn]⟩ (by decide)⟩

/-- Claim C3, counterexample.  The claim, read as stated, makes any string
`X` with no underscores a candidate widget name as soon as a declaration
`lv_<X>_create` with one parameter is loaded.  For the empty string the
declaration `lv__create` (one parameter) satisfies this, yet the regex
capture `[^_]+` requires a nonempty segment, so no widget name is
discovered. -/
theorem claim3_counterexample :
    emptyCaptureFn ∈ [emptyCaptureFn] ∧
    emptyCaptureFn.name = "lv_" ++ "" ++ "_create" ∧
    ("" : String).data.contains '_' = false ∧
    emptyCaptureFn.args.length = 1 ∧
    "" ∉ get_widget_names [emptyCaptureFn] := by
  decide

/-- Claim C3, amended.  `X` becomes a candidate widget name iff some loaded
declaration is named exactly `lv_<X>_create` with `X` nonempty and
containing no underscores, and that declaration has exactly one parameter. -/
theorem claim3_amended_discovery (functions : List LvFunc) (X : String) :
    X ∈ get_widget_names functions ↔
      ∃ f, f ∈ functions ∧ f.name = "lv_" ++ X ++ "_create" ∧
        X.data ≠ [] ∧ X.data.contains '_' = false ∧ f.args.length = 1 := by
  unfold get_widget_names
  rw [List.mem_filterMap]
  constructor
  · rintro ⟨f, hf, hcap⟩
    obtain ⟨hfin, hpred⟩ := List.mem_filter.mp hf
    obtain ⟨hname, hne, hnu⟩ := (createCapture_eq_some f.name X).mp hcap
    have hlen : f.args.length = 1 := by
      have h2 := (Bool.and_eq_true _ _).mp hpred
      simpa using h2.2
    exact ⟨f, hfin, hname, hne, hnu, hlen⟩
  · rintro ⟨f, hfin, hname, hne, hnu, hlen⟩
    have hcap : createCapture f.name = some X :=
      (createCapture_eq_some f.name X).mpr ⟨hname, hne, hnu⟩
    refine ⟨f, List.mem_filter.mpr ⟨hfin, ?_⟩, hcap⟩
    simp [hcap, hlen]

/-- Claim C3, witness for the amended theorem at a concrete input. -/
theorem claim3_witness : "btn" ∈ get_widget_names [btnCreateFn] :=
  (claim3_amended_discovery [btnCreateFn] "btn").mpr
    ⟨btnCreateFn, by decide, by decide, by decide, by decide, by decide⟩

/-- Claim C4.  For any widget and any declaration whose name with the
`lv_<widget>_` segment removed is exactly `create`, emission succeeds and
yields the fixed constructor fragment — a `create(parent)` entry point
calling `lvgl_sys::<name>(parent.raw().as_mut())` with a null-handle check
that produces `LvError::InvalidReference`, plus a no-argument `new()`
delegating to `create` — and it depends only on the declaration's name: the
arguments and return type (hence the Type Mapper) are never consulted, so a
second parameter with an unsupported type cannot make it fail. -/
theorem claim4_constructor_emission (w : LvWidget) (nm : String) (args : List LvArg)
    (ret : Option LvType)
    (h : strReplace nm (LIB_PREFIX ++ w.name ++ "_") "" = "create") :
    LvFunc.code ⟨nm, args, ret⟩ w = .ok (constructorCode nm) ∧
    "InvalidReference" ∈ constructorCode nm ∧
    "new" ∈ constructorCode nm ∧
    "create" ∈ constructorCode nm := by
  refine ⟨?_, by simp [constructorCode], by simp [constructorCode], by simp [constructorCode]⟩
  simp [LvFunc.code, h]

/-- Claim C4, witness: the `lv_arc_create(par, copy)` declaration whose
second parameter's type `*const lv_obj_t` has no type-mapping entry. -/
theorem claim4_witness :
    strReplace "lv_arc_create" (LIB_PREFIX ++ "arc" ++ "_") "" = "create" ∧
    typeMappingsGet "* const lv_obj_t" = none ∧
    (LvFunc.code arcCreate2Fn ⟨"arc", []⟩ = .ok (constructorCode "lv_arc_create") ∧
      "InvalidReference" ∈ constructorCode "lv_arc_create" ∧
      "new" ∈ constructorCode "lv_arc_create" ∧
      "create" ∈ constructorCode "lv_arc_create") :=
  ⟨by decide, by decide,
    claim4_constructor_emission ⟨"arc", []⟩ "lv_arc_create"
      [⟨"par", demoObjT⟩, ⟨"copy", ⟨"* const lv_obj_t"⟩⟩] (some demoObjT) (by decide)⟩

/-- Claim C5.  For a non-constructor method with a declared return type:
when the spelling is one of `bool`, `u32`, `i32`, `u16`, `i16`, `u8`, `i8`
the emitted method's return type is exactly that token and the body has no
trailing semicolon after the native call and no `Ok(...)` wrapping (both
token sections are empty); for any other return-type spelling emission
fails with `Skip`. -/
theorem claim5_return_translation (w : LvWidget) (f : LvFunc) (rv : LvType)
    (hnc : strReplace f.name (LIB_PREFIX ++ w.name ++ "_") "" ≠ "create")
    (hret : f.ret = some rv) :
    (∀ decls : List TokenStream, checkArgs f (f.args.drop 1) = .ok decls →
      rv.literal_name ∈ supportedRet →
      f.code w = .ok (methodBody f (strReplace f.name (LIB_PREFIX ++ w.name ++ "_") "")
          [rv.literal_name] decls) ∧
      optSemicolonToks f.ret = [] ∧
      explicitOkToks [rv.literal_name] = []) ∧
    (rv.literal_name ∉ supportedRet → f.code w = .error .skip) := by
  constructor
  · intro decls hchk hin
    rw [List.drop_one] at hchk
    refine ⟨?_, by rw [hret]; rfl, rfl⟩
    simp [LvFunc.code, hnc, retToksOf, hret, hin, hchk]
  · intro hout
    simp [LvFunc.code, hnc, retToksOf, hret, hout]

/-- Claim C5, witness: `lv_label_get_recolor` returning `bool`. -/
theorem claim5_witness :
    strReplace "lv_label_get_recolor" (LIB_PREFIX ++ "label" ++ "_") "" ≠ "create" ∧
    labelGetRecolorFn.ret = some ⟨"bool"⟩ ∧
    checkArgs labelGetRecolorFn (labelGetRecolorFn.args.drop 1) = .ok [] ∧
    ("bool" : String) ∈ supportedRet ∧
    labelGetRecolorFn.code ⟨"label", []⟩ =
      .ok (methodBody labelGetRecolorFn "get_recolor" ["bool"] []) := by
  refine ⟨by decide, by decide, by decide, by decide, ?_⟩
  have h := ((claim5_return_translation ⟨"label", []⟩ labelGetRecolorFn ⟨"bool"⟩
      (by decide) (by decide)).1 [] (by decide) (by decide)).1
  exact h

/-- Claim C6.  For a non-constructor method, any parameter after the first
whose type spelling has no entry in the type-mapping table makes emission
of that method fail with `Skip`, while the fragments emitted for the other
methods of the same widget are unchanged: dropping the skipped method from
the widget's method list leaves the emitted fragment list identical. -/
theorem claim6_unsupported_param_skips (n : String) (f : LvFunc) (a : LvArg)
    (hnc : strReplace f.name (LIB_PREFIX ++ n ++ "_") "" ≠ "create")
    (hmem : a ∈ f.args.drop 1)
    (hnone : typeMappingsGet a.typ.literal_name = none) :
    (∀ ms : List LvFunc, f.code ⟨n, ms⟩ = .error .skip) ∧
    (∀ ms1 ms2 : List LvFunc,
      LvWidget.methodFragments ⟨n, ms1 ++ f :: ms2⟩ =
        LvWidget.methodFragments ⟨n, ms1 ++ ms2⟩) := by
  have hskip : ∀ ms : List LvFunc, f.code ⟨n, ms⟩ = .error .skip := by
    intro ms
    have hca : checkArgs f f.args.tail = .error .skip := by
      rw [← List.drop_one]
      exact checkArgs_error_of_mem f _ a hmem (LvArg.code_error_of_unmapped a f hnone)
    cases hr : retToksOf f.ret with
    | error e =>
      cases e
      simp [LvFunc.code, hnc, hr]
    | ok rt =>
      simp [LvFunc.code, hnc, hr, hca]
  refine ⟨hskip, ?_⟩
  intro ms1 ms2
  have hfun : (fun m => (LvFunc.code m ⟨n, ms1 ++ f :: ms2⟩).toOption)
      = (fun m => (LvFunc.code m ⟨n, ms1 ++ ms2⟩).toOption) := rfl
  show (ms1 ++ f :: ms2).filterMap (fun m => (LvFunc.code m ⟨n, ms1 ++ f :: ms2⟩).toOption)
      = (ms1 ++ ms2).filterMap (fun m => (LvFunc.code m ⟨n, ms1 ++ ms2⟩).toOption)
  rw [← hfun, List.filterMap_append, List.filterMap_append, List.filterMap_cons,
    hskip (ms1 ++ f :: ms2)]
  simp [Except.toOption]

/-- Claim C6, witness: `lv_label_set_style` whose second parameter's type
`*mut lv_style_t` is unmapped, next to the emittable `lv_label_set_text`. -/
theorem claim6_witness :
    strReplace "lv_label_set_style" (LIB_PREFIX ++ "label" ++ "_") "" ≠ "create" ∧
    (⟨"style", ⟨"* mut lv_style_t"⟩⟩ : LvArg) ∈ labelSetStyleFn.args.drop 1 ∧
    typeMappingsGet "* mut lv_style_t" = none ∧
    labelSetStyleFn.code ⟨"label", ([] : List LvFunc)⟩ = .error .skip ∧
    LvWidget.methodFragments ⟨"label", [labelSetTextFn, labelSetStyleFn]⟩ =
      LvWidget.methodFragments ⟨"label", [labelSetTextFn]⟩ :=
  ⟨by decide, by decide, by decide,
    (claim6_unsupported_param_skips "label" labelSetStyleFn ⟨"style", ⟨"* mut lv_style_t"⟩⟩
      (by decide) (by decide) (by decide)).1 [],
    (claim6_unsupported_param_skips "label" labelSetStyleFn ⟨"style", ⟨"* mut lv_style_t"⟩⟩
      (by decide) (by decide) (by decide)).2 [labelSetTextFn] []⟩

/-- Claim C7.  In every emitted non-constructor method the declaration's
first parameter is replaced by a receiver — `&self` when its type spelling
is const-qualified (begins with `const `, the spec's `is_const`), `&mut
self` otherwise — and it never appears in the generated parameter list:
the declared parameters are exactly the receiver followed by the
translations of the remaining arguments, and replacing the first parameter
by any other of equal constness leaves the emitted method unchanged. -/
theorem claim7_receiver_translation (w : LvWidget) (f : LvFunc) (a : LvArg)
    (rest : List LvArg) (rt : TokenStream) (decls : List TokenStream)
    (hargs : f.args = a :: rest)
    (hnc : strReplace f.name (LIB_PREFIX ++ w.name ++ "_") "" ≠ "create")
    (hret : retToksOf f.ret = .ok rt)
    (hchk : checkArgs f rest = .ok decls) :
    f.code w = .ok (methodBody f (strReplace f.name (LIB_PREFIX ++ w.name ++ "_") "") rt decls) ∧
    argsDeclToks f.args decls =
      accJoin ((if a.typ.is_const then ["&", "self"] else ["&", "mut", "self"]) :: decls) ∧
    (∀ a' : LvArg, a'.typ.is_const = a.typ.is_const →
      LvFunc.code ⟨f.name, a' :: rest, f.ret⟩ w = f.code w) := by
  have hdrop : f.args.tail = rest := by rw [hargs]; rfl
  have hmain : f.code w =
      .ok (methodBody f (strReplace f.name (LIB_PREFIX ++ w.name ++ "_") "") rt decls) := by
    simp [LvFunc.code, hnc, hret, hdrop, hchk]
  refine ⟨hmain, by rw [hargs]; rfl, ?_⟩
  intro a' hconst
  have hchk' : checkArgs ⟨f.name, a' :: rest, f.ret⟩ rest = .ok decls := by
    rw [checkArgs_parent_irrelevant ⟨f.name, a' :: rest, f.ret⟩ f rest]
    exact hchk
  rw [hmain]
  simp only [LvFunc.code, hnc, hret, hchk', if_neg hnc, List.drop_one, List.tail_cons]
  simp [methodBody, argsDeclToks, argsProcessingToks, ffiArgsToks, hconst, hargs]

/-- Claim C7, witness: `lv_arc_set_bg_end_angle(arc: *mut lv_obj_t, end:
u16)` — non-const handle, hence a `&mut self` receiver. -/
theorem claim7_witness :
    arcSetAngleFn.args = ⟨"arc", demoObjT⟩ :: [⟨"end", ⟨"u16"⟩⟩] ∧
    strReplace "lv_arc_set_bg_end_angle" (LIB_PREFIX ++ "arc" ++ "_") "" ≠ "create" ∧
    retToksOf arcSetAngleFn.ret = .ok ["(", ")"] ∧
    checkArgs arcSetAngleFn [⟨"end", ⟨"u16"⟩⟩] = .ok [["end", ":", "u16"]] ∧
    (arcSetAngleFn.code ⟨"arc", []⟩ =
        .ok (methodBody arcSetAngleFn
          (strReplace "lv_arc_set_bg_end_angle" (LIB_PREFIX ++ "arc" ++ "_") "")
          ["(", ")"] [["end", ":", "u16"]]) ∧
      argsDeclToks arcSetAngleFn.args [["end", ":", "u16"]] =
        accJoin ((if (⟨"arc", demoObjT⟩ : LvArg).typ.is_const then ["&", "self"]
            else ["&", "mut", "self"]) :: [["end", ":", "u16"]]) ∧
      (∀ a' : LvArg, a'.typ.is_const = (⟨"arc", demoObjT⟩ : LvArg).typ.is_const →
        LvFunc.code ⟨arcSetAngleFn.name, a' :: [⟨"end", ⟨"u16"⟩⟩], arcSetAngleFn.ret⟩
            ⟨"arc", []⟩ = arcSetAngleFn.code ⟨"arc", []⟩)) :=
  ⟨by decide, by decide, by decide, by decide,
    claim7_receiver_translation ⟨"arc", []⟩ arcSetAngleFn ⟨"arc", demoObjT⟩
      [⟨"end", ⟨"u16"⟩⟩] ["(", ")"] [["end", ":", "u16"]]
      (by decide) (by decide) (by decide) (by decide)⟩

/-- Claim C8.  Widget emission signals `Skip` exactly for the widget named
`obj`; any other widget yields `define_object!(<PascalName>);` plus an
`impl` block holding exactly the successful method fragments; and an
`lv_obj_create` declaration with one parameter still puts `obj` into the
discovered widget names. -/
theorem claim8_obj_widget (w : LvWidget) (functions : List LvFunc) (f : LvFunc) :
    (LvWidget.code w () = .error .skip ↔ w.name = "obj") ∧
    (w.name ≠ "obj" →
      LvWidget.code w () =
        .ok (["define_object", "!", "(", w.pascal_name, ")", ";",
              "impl", "<", "\x27a", ">", w.pascal_name, "<", "\x27a", ">", "\x7b"]
             ++ (LvWidget.methodFragments w).flatten ++ ["\x7d"])) ∧
    (f ∈ functions → f.name = "lv_obj_create" → f.args.length = 1 →
      "obj" ∈ get_widget_names functions) := by
  refine ⟨?_, ?_, ?_⟩
  · by_cases h : w.name = "obj" <;> simp [LvWidget.code, h]
  · intro h
    simp [LvWidget.code, h]
  · intro hf hname hlen
    unfold get_widget_names
    apply List.mem_filterMap.mpr
    refine ⟨f, List.mem_filter.mpr ⟨hf, ?_⟩, ?_⟩
    · rw [hname, hlen]
      decide
    · rw [hname]
      decide

/-- Claim C8, witness: the widget `btn` is emitted, and `lv_obj_create`
still contributes `obj` during discovery. -/
theorem claim8_witness :
    ("btn" : String) ≠ "obj" ∧
    LvWidget.code ⟨"btn", []⟩ () =
      .ok (["define_object", "!", "(", LvWidget.pascal_name ⟨"btn", []⟩, ")", ";",
            "impl", "<", "\x27a", ">", LvWidget.pascal_name ⟨"btn", []⟩, "<", "\x27a", ">",
            "\x7b"]
           ++ (LvWidget.methodFragments ⟨"btn", []⟩).flatten ++ ["\x7d"]) ∧
    "obj" ∈ get_widget_names [objCreateFn] :=
  ⟨by decide,
    (claim8_obj_widget ⟨"btn", []⟩ [objCreateFn] objCreateFn).2.1 (by decide),
    (claim8_obj_widget ⟨"btn", []⟩ [objCreateFn] objCreateFn).2.2
      (by decide) (by decide) (by decide)⟩

/-- Claim C9, counterexample for its second half.  The claim asserts that
some input produces a widget with an empty method list.  In the source an
entry is only ever created by `or_insert_with(..).methods.push(f)`, which
immediately pushes a method, so every extracted widget holds at least one
method: a widget with zero methods never appears, for any input and any
map traversal order. -/
theorem claim9_counterexample :
    ¬ ∃ (functions : List LvFunc) (order : List Nat) (w : LvWidget),
        w ∈ extract_widgets functions order ∧ w.methods = [] := by
  rintro ⟨fs, order, w, hw, hempty⟩
  obtain ⟨p, hp, rfl⟩ := mem_extract_widgets fs order w hw
  exact nonempty_vals_extract_map fs p hp hempty

/-- Claim C9, amended.  Widget extraction never returns an error, and every
widget it produces has a nonempty method list (a discovered name with no
qualifying method yields no widget at all rather than an empty one). -/
theorem claim9_amended_totality (functions : List LvFunc) (order : List Nat) :
    (∃ ws, extract_widgets_res functions order = Except.ok ws) ∧
    (∀ w : LvWidget, w ∈ extract_widgets functions order → w.methods ≠ []) := by
  refine ⟨⟨extract_widgets functions order, rfl⟩, ?_⟩
  intro w hw
  obtain ⟨p, hp, rfl⟩ := mem_extract_widgets functions order w hw
  exact nonempty_vals_extract_map functions p hp

/-- Claim C9, witness for the amended theorem at a concrete input. -/
theorem claim9_witness :
    (∃ ws, extract_widgets_res [barCreateFn] [0] = Except.ok ws) ∧
    ((⟨"bar", [barCreateFn]⟩ : LvWidget) ∈ extract_widgets [barCreateFn] [0] ∧
      (⟨"bar", [barCreateFn]⟩ : LvWidget).methods ≠ []) :=
  ⟨(claim9_amended_totality [barCreateFn] [0]).1,
    by decide,
    (claim9_amended_totality [barCreateFn] [0]).2 ⟨"bar", [barCreateFn]⟩ (by decide)⟩

/-- Claim C10.  In every emitted non-constructor method the first argument
handed to the native call is the fixed `self.core.raw().as_mut()` tokens —
independently of the first parameter, hence also when the receiver is an
immutable `&self` — the remaining arguments are forwarded positionally in
declaration order through `get_value_usage`, and a string-typed argument is
forwarded as `<name>.as_ptr()`. -/
theorem claim10_ffi_call_shape (w : LvWidget) (f : LvFunc) (a : LvArg)
    (rest : List LvArg) (rt : TokenStream) (decls : List TokenStream)
    (hargs : f.args = a :: rest)
    (hnc : strReplace f.name (LIB_PREFIX ++ w.name ++ "_") "" ≠ "create")
    (hret : retToksOf f.ret = .ok rt)
    (hchk : checkArgs f rest = .ok decls) :
    f.code w = .ok (methodBody f (strReplace f.name (LIB_PREFIX ++ w.name ++ "_") "") rt decls) ∧
    ffiArgsToks f.args =
      accJoin (selfFfiToks :: rest.map (fun r => r.get_value_usage)) ∧
    selfFfiToks = ["self", ".", "core", ".", "raw", "(", ")", ".", "as_mut", "(", ")"] ∧
    (∀ r : LvArg, r.typ.is_str = true →
      r.get_value_usage = [r.get_name_ident, ".", "as_ptr", "(", ")"]) := by
  have hdrop : f.args.tail = rest := by rw [hargs]; rfl
  refine ⟨?_, by rw [hargs]; rfl, rfl, ?_⟩
  · simp [LvFunc.code, hnc, hret, hdrop, hchk]
  · intro r h
    simp [LvArg.get_value_usage, h]

/-- Claim C10, witness: `lv_label_set_text(label, text)` with a string
second argument forwarded as `text.as_ptr()`. -/
theorem claim10_witness :
    labelSetTextFn.args = ⟨"label", demoObjT⟩ :: [⟨"text", ⟨"* const cty :: c_char"⟩⟩] ∧
    strReplace "lv_label_set_text" (LIB_PREFIX ++ "label" ++ "_") "" ≠ "create" ∧
    retToksOf labelSetTextFn.ret = .ok ["(", ")"] ∧
    checkArgs labelSetTextFn [⟨"text", ⟨"* const cty :: c_char"⟩⟩] =
      .ok [["text", ":", "&", "cstr_core", "::", "CStr"]] ∧
    (labelSetTextFn.code ⟨"label", []⟩ =
        .ok (methodBody labelSetTextFn
          (strReplace "lv_label_set_text" (LIB_PREFIX ++ "label" ++ "_") "")
          ["(", ")"] [["text", ":", "&", "cstr_core", "::", "CStr"]]) ∧
      ffiArgsToks labelSetTextFn.args =
        accJoin (selfFfiToks ::
          ([⟨"text", ⟨"* const cty :: c_char"⟩⟩] : List LvArg).map
            (fun r => r.get_value_usage)) ∧
      selfFfiToks = ["self", ".", "core", ".", "raw", "(", ")", ".", "as_mut", "(", ")"] ∧
      (∀ r : LvArg, r.typ.is_str = true →
        r.get_value_usage = [r.get_name_ident, ".", "as_ptr", "(", ")"])) :=
  ⟨by decide, by decide, by decide, by decide,
    claim10_ffi_call_shape ⟨"label", []⟩ labelSetTextFn ⟨"label", demoObjT⟩
      [⟨"text", ⟨"* const cty :: c_char"⟩⟩] ["(", ")"]
      [["text", ":", "&", "cstr_core", "::", "CStr"]]
      (by decide) (by decide) (by decide) (by decide)⟩

end Codegen
